import Mathlib

/-!
Verification development for the anchor-target assignment module
(`frcnn/anchor.py`, class `AnchorTarget`). The Python code is shallowly
embedded: boxes are rational 4-tuples, numpy arrays are lists, boolean-mask
assignments are `zipWith` over equal-length lists, fancy-index assignments
are folds of `List.set`, and operations that raise in Python return
`Except.error`. The helpers `generate_anchors`, `bbox_overlaps` and
`bbox_transform` are imported by the module from `utils` and are not part of
its own source; they are modelled from the specification and say so in
their doc comments. Everything else is translated line by line from
`_anchor_target_layer_np` and `__init__`.
-/

/-- An axis-aligned box, coordinates (x1, y1, x2, y2) as rationals (the Python
code works in float64/float32; exact rationals stand in for them). -/
structure Box where
  x1 : ℚ
  y1 : ℚ
  x2 : ℚ
  y2 : ℚ
deriving DecidableEq

instance : Inhabited Box := ⟨⟨0, 0, 0, 0⟩⟩

/-- A ground-truth row: box coordinates plus the trailing class id, which the
geometry carries but never reads (`gt_boxes` rows are 5-wide). -/
structure GtBox where
  x1 : ℚ
  y1 : ℚ
  x2 : ℚ
  y2 : ℚ
  cls : ℚ
deriving DecidableEq

instance : Inhabited GtBox := ⟨⟨0, 0, 0, 0, 0⟩⟩

/-- The first four fields of a ground-truth row, as used by the geometry
(the code slices `gt_boxes[:, :4]`). -/
def GtBox.box (g : GtBox) : Box := ⟨g.x1, g.y1, g.x2, g.y2⟩

/-- A 4-component row vector (one row of `bbox_targets` or of a weight
array). -/
abbrev Vec4 := ℚ × ℚ × ℚ × ℚ

/-- Inclusive pixel-coordinate area of a box, width and height taken as
`x2 - x1 + 1` and `y2 - y1 + 1`. -/
def boxArea (b : Box) : ℚ := (b.x2 - b.x1 + 1) * (b.y2 - b.y1 + 1)

/-- Modelled from the spec: `utils.cython_bbox.bbox_overlaps` is imported by
the module and is not under `src/`. Section 4.2 fixes the formula — IoU =
intersection-area / (area_a + area_b - intersection-area) — with box width
`x2 - x1 + 1` in the inclusive pixel convention the repository uses
uniformly. An empty intersection gives 0. -/
def iou (a : Box) (g : Box) : ℚ :=
  let iw := min a.x2 g.x2 - max a.x1 g.x1 + 1
  let ih := min a.y2 g.y2 - max a.y1 g.y1 + 1
  if 0 < iw ∧ 0 < ih then
    iw * ih / (boxArea a + boxArea g - iw * ih)
  else 0

/-- Modelled from the spec: the overlap matrix of section 4.2, one row per
(inside) anchor and one column per ground-truth box. -/
def bbox_overlaps (anchors : List Box) (gts : List GtBox) : List (List ℚ) :=
  anchors.map (fun a => gts.map (fun g => iou a g.box))

/-- Index of the first maximum of a list, as `numpy.argmax` computes it on a
1-d array; `none` models the ValueError numpy raises on an empty array. -/
def npArgmax : List ℚ → Option ℕ
  | [] => none
  | x :: xs =>
    match npArgmax xs with
    | none => some 0
    | some k => if x < xs.getD k 0 then some (k + 1) else some 0

/-- Elementwise `npArgmax` over a list of rows (respectively columns): the
model of `overlaps.argmax(axis=1)` (respectively `axis=0`); `none` as soon as
one row is empty, as numpy raises then. -/
def argmaxEach : List (List ℚ) → Option (List ℕ)
  | [] => some []
  | r :: rs =>
    match npArgmax r, argmaxEach rs with
    | some a, some as => some (a :: as)
    | _, _ => none

/-- Column `j` of an overlap matrix stored by rows (entry 0 when a row is too
short; well-formed matrices never use the default). -/
def colOf (ov : List (List ℚ)) (j : ℕ) : List ℚ := ov.map (fun r => r.getD j 0)

/-- Entry `(i, j)` of an overlap matrix stored by rows. -/
def entryAt (ov : List (List ℚ)) (i j : ℕ) : ℚ := (ov.getD i []).getD j 0

/-- What lines 145-150 derive from `overlaps`: `argmax_overlaps` (best
ground-truth column per anchor row), `max_overlaps` (that IoU), and the final
value of `gt_argmax_overlaps` — the row indices of
`np.where(overlaps == gt_max_overlaps)`, i.e. every anchor tied at some
column maximum; the spec calls this set `gt_best_anchor`. -/
structure DerivedOverlaps where
  argmax_overlaps : List ℕ
  max_overlaps : List ℚ
  gt_best_anchor : List ℕ
deriving DecidableEq

/-- Lines 145-150 of `_anchor_target_layer_np`. `M` is the number of
ground-truth columns. `overlaps.argmax(axis=1)` raises ValueError when `M = 0`
and there is at least one row; `overlaps.argmax(axis=0)` raises when there are
no rows and `M` is positive; both are modelled by `Except.error`.
`gt_max_overlaps` is read off at the per-column argmax rows, and
`gt_best_anchor` collects, in row-major order exactly as `np.where` does, each
row index `i` once per column `j` whose maximum `overlaps[i][j]` attains. -/
def derivedOverlaps (ov : List (List ℚ)) (M : ℕ) : Except String DerivedOverlaps :=
  match argmaxEach ov with
  | none => Except.error "ValueError: attempt to get argmax of an empty sequence"
  | some am =>
    match argmaxEach ((List.range M).map (colOf ov)) with
    | none => Except.error "ValueError: attempt to get argmax of an empty sequence"
    | some gtArg =>
      let max_overlaps := List.zipWith (fun r a => r.getD a 0) ov am
      let gt_max := List.zipWith (fun gi j => entryAt ov gi j) gtArg (List.range M)
      let gt_best := (List.range ov.length).flatMap (fun i =>
        ((List.range M).filter (fun j => decide (entryAt ov i j = gt_max.getD j 0))).map
          (fun _ => i))
      Except.ok ⟨am, max_overlaps, gt_best⟩

/-- Fancy-index assignment `labels[inds] = v`: set every listed position
(positions beyond the length are ignored, as they cannot arise from the
index vectors the code builds). -/
def setIdxs (l : List ℤ) (inds : List ℕ) (v : ℤ) : List ℤ :=
  inds.foldl (fun acc i => acc.set i v) l

/-- Boolean-mask assignment `labels[max_overlaps < t] = v` over parallel
lists. -/
def maskBelow (l : List ℤ) (mo : List ℚ) (t : ℚ) (v : ℤ) : List ℤ :=
  List.zipWith (fun lab m => if m < t then v else lab) l mo

/-- Boolean-mask assignment `labels[max_overlaps >= t] = v` over parallel
lists. -/
def maskAtLeast (l : List ℤ) (mo : List ℚ) (t : ℚ) (v : ℤ) : List ℤ :=
  List.zipWith (fun lab m => if t ≤ m then v else lab) l mo

/-- Lines 137-164: the label vector before subsampling. Labels start at -1
for every inside anchor; then, in this order: background where
`max_overlaps < negative_overlap` (skipped when clobbering positives),
label 1 at every index of `gt_best_anchor`, label 1 where
`max_overlaps >= positive_overlap`, and, only when clobbering positives,
background where `max_overlaps < negative_overlap` last. The three threshold
attributes are those the method reads from `self`. -/
def labelsAfterPasses (clobber_positives : Bool) (negative_overlap positive_overlap : ℚ)
    (max_overlaps : List ℚ) (gt_best : List ℕ) : List ℤ :=
  let labels0 : List ℤ := List.replicate max_overlaps.length (-1)
  let labels1 := if clobber_positives then labels0
    else maskBelow labels0 max_overlaps negative_overlap 0
  let labels2 := setIdxs labels1 gt_best 1
  let labels3 := maskAtLeast labels2 max_overlaps positive_overlap 1
  if clobber_positives then maskBelow labels3 max_overlaps negative_overlap 0 else labels3

/-- Positions of the entries equal to `v`, in increasing order starting at
offset `k`: the recursion behind `np.where(labels == v)[0]`. -/
def idxsEqAux (v : ℤ) : ℕ → List ℤ → List ℕ
  | _, [] => []
  | k, x :: t => if x = v then k :: idxsEqAux v (k + 1) t else idxsEqAux v (k + 1) t

/-- Model of `np.where(labels == v)[0]`: the sorted positions holding `v`. -/
def idxsEq (l : List ℤ) (v : ℤ) : List ℕ := idxsEqAux v 0 l

/-- Truncation toward zero, the semantics of Python `int()` on a number. -/
def pyInt (q : ℚ) : ℤ := if 0 ≤ q then Rat.floor q else -Rat.floor (-q)

/-- A substitute for `np.random.choice(inds, size=k, replace=False)`: any
function that, on a duplicate-free index list and a feasible size, returns
that many distinct members of the list. The Python code draws from the
process-global numpy generator; the embedding takes the draw as an explicit
argument. -/
def ValidChoice (choice : List ℕ → ℕ → List ℕ) : Prop :=
  ∀ l k, l.Nodup → k ≤ l.length →
    (choice l k).length = k ∧ (choice l k).Nodup ∧ ∀ x ∈ choice l k, x ∈ l

/-- Lines 166-172: subsample positive labels. `num_fg` is
`int(foreground_fraction * batch_size)`; when more than `num_fg` entries hold
label 1, a drawn excess subset is reset to -1. -/
def subsampleFg (foreground_fraction : ℚ) (batch_size : ℤ)
    (choice : List ℕ → ℕ → List ℕ) (labels : List ℤ) : List ℤ :=
  let num_fg : ℤ := pyInt (foreground_fraction * (batch_size : ℚ))
  let fg_inds := idxsEq labels 1
  if num_fg < (fg_inds.length : ℤ) then
    setIdxs labels (choice fg_inds (((fg_inds.length : ℤ) - num_fg).toNat)) (-1)
  else labels

/-- Lines 174-180: subsample negative labels. `num_bg` is `batch_size` minus
the count of label 1 after the positive pass; when more than `num_bg` entries
hold label 0, a drawn excess subset is reset to -1. -/
def subsampleBg (batch_size : ℤ)
    (choice : List ℕ → ℕ → List ℕ) (labels : List ℤ) : List ℤ :=
  let num_bg : ℤ := batch_size - (labels.count 1 : ℤ)
  let bg_inds := idxsEq labels 0
  if num_bg < (bg_inds.length : ℤ) then
    setIdxs labels (choice bg_inds (((bg_inds.length : ℤ) - num_bg).toNat)) (-1)
  else labels

/-- Lines 166-180: the whole balanced sampler, positives first, then
negatives against the updated positive count. -/
def subsampleLabels (foreground_fraction : ℚ) (batch_size : ℤ)
    (choice : List ℕ → ℕ → List ℕ) (labels : List ℤ) : List ℤ :=
  subsampleBg batch_size choice (subsampleFg foreground_fraction batch_size choice labels)

/-- Line 191: `num_examples = np.sum(labels >= 0) + 1`. -/
def num_examples (labels : List ℤ) : ℤ :=
  ((labels.countP (fun x => decide (0 ≤ x))) : ℤ) + 1

/-- Lines 188-201: `bbox_outside_weights` starts at zero, rows with label 1
get `positive_weights` and rows with label 0 get `negative_weights`, both
equal to `1/num_examples` on each of the 4 components. -/
def bbox_outside_weights (labels : List ℤ) : List Vec4 :=
  let w : ℚ := 1 / ((num_examples labels : ℤ) : ℚ)
  labels.map (fun lab =>
    if lab = 1 then (w, w, w, w)
    else if lab = 0 then (w, w, w, w)
    else ((0 : ℚ), (0 : ℚ), (0 : ℚ), (0 : ℚ)))

/-- Center x of a box in the inclusive convention (`x1 + 0.5 * width`,
width `x2 - x1 + 1`). -/
def ctrX (b : Box) : ℚ := b.x1 + (b.x2 - b.x1 + 1) / 2

/-- Center y of a box in the inclusive convention. -/
def ctrY (b : Box) : ℚ := b.y1 + (b.y2 - b.y1 + 1) / 2

/-- Modelled from the spec: `utils.bbox_transform.bbox_transform` is imported
by the module and is not under `src/`. The spec fixes only that it is an
invertible box-delta encoding of the anchor relative to its matched
ground-truth box, zero exactly on identical boxes, with the same inclusive
width convention as the overlap matcher. The center offsets are normalized by
the anchor size as in the conventional encoder; the size components are
modelled as relative size deltas (a rational surrogate for the logarithmic
ones, equal to them at ratio 1 and zero exactly when the sizes agree). -/
def bbox_transform (ex : Box) (gt : Box) : Vec4 :=
  let ew := ex.x2 - ex.x1 + 1
  let eh := ex.y2 - ex.y1 + 1
  let gw := gt.x2 - gt.x1 + 1
  let gh := gt.y2 - gt.y1 + 1
  ((ctrX gt - ctrX ex) / ew, (ctrY gt - ctrY ex) / eh, gw / ew - 1, gh / eh - 1)

/-- Fancy row gather `gt_boxes[argmax_overlaps, :]`. -/
def gatherGt (gts : List GtBox) (inds : List ℕ) : List GtBox :=
  inds.map (fun i => gts.getD i default)

/-- Lines 182-183 with `_compute_targets` (lines 247-256): `bbox_targets` is
first created as zeros and then immediately rebound to the encoding of every
inside anchor against its argmax-matched ground truth, labels never
consulted; the zeros array is dead. `_compute_targets` slices the class id
off (`gt_boxes[:, :4]`). -/
def compute_targets (anchors : List Box) (gts : List GtBox) : List Vec4 :=
  List.zipWith (fun a g => bbox_transform a g.box) anchors gts

/-- Modelled from the spec: `utils.generate_anchors.generate_anchors` is
imported by the module and is not under `src/`. Section 3 fixes only that it
deterministically produces A = number-of-ratios times number-of-scales base
boxes from the 16-pixel base window [0,0,15,15]; the individual coordinates
(the rounded square-root construction) are left open and no claim reads
them, so each box is modelled as the base window stretched to width
`16 * s` and height `16 * s * r` about its center. -/
def generate_anchors (ratios scales : List ℚ) : List Box :=
  ratios.flatMap (fun r => scales.map (fun s =>
    let w := 16 * s
    let h := 16 * s * r
    ⟨(15 : ℚ) / 2 - (w - 1) / 2, (15 : ℚ) / 2 - (h - 1) / 2,
     (15 : ℚ) / 2 + (w - 1) / 2, (15 : ℚ) / 2 + (h - 1) / 2⟩))

/-- The attributes `AnchorTarget.__init__` stores on `self` (lines 43-57),
plus the cached `self.anchors` of the `anchors` property. The threshold,
sampling and weight attributes are hardcoded constants of the constructor,
not parameters. -/
structure AnchorTargetState where
  anchor_scales : List ℚ
  anchor_ratios : List ℚ
  num_anchors : ℕ
  feat_stride : List ℚ
  allowed_border : ℚ
  clobber_positives : Bool
  positive_overlap : ℚ
  negative_overlap : ℚ
  foreground_fraction : ℚ
  batch_size : ℤ
  bbox_inside_weights : Vec4
  anchors : List Box

/-- Lines 43-57: the constructor. It accepts only the scales, the ratios and
the feature stride (the snt module name is dropped: nothing reads it), caches
the generated anchor templates, counts them, and assigns the remaining
attributes as hardcoded constants. No argument is validated and no branch can
fail. -/
def AnchorTarget.init (anchor_scales anchor_ratios feat_stride : List ℚ) :
    AnchorTargetState :=
  let anchors := generate_anchors anchor_ratios anchor_scales
  ⟨anchor_scales, anchor_ratios, anchors.length, feat_stride,
   0, false, 7/10, 3/10, 1/2, 256, (1, 1, 1, 1), anchors⟩

/-- Names assigned somewhere in the body of `_anchor_target_layer_np` (its
parameters included): per Python function scoping these are the local names
of the function. `im_info` and `_unmap` are read in the body but appear
nowhere here. -/
def anchorTargetLayerNpLocals : List String :=
  ["self", "rpn_cls_score", "gt_boxes", "height", "width", "shift_x", "shift_y",
   "shifts", "A", "K", "all_anchors", "total_anchors", "inds_inside", "anchors",
   "labels", "overlaps", "argmax_overlaps", "max_overlaps", "gt_argmax_overlaps",
   "gt_max_overlaps", "num_fg", "fg_inds", "disable_inds", "num_bg", "bg_inds",
   "bbox_targets", "bbox_inside_weights", "bbox_outside_weights", "num_examples",
   "positive_weights", "negative_weights"]

/-- Module-level names of `frcnn/anchor.py`: the three import aliases, the
three names imported from `utils`, and the class itself. -/
def anchorModuleGlobals : List String :=
  ["snt", "tf", "np", "generate_anchors", "bbox_overlaps", "bbox_transform",
   "AnchorTarget"]

/-- The Python builtin names (builtins module of CPython). -/
def pythonBuiltins : List String :=
  ["abs", "aiter", "all", "anext", "any", "ascii", "bin", "bool", "breakpoint",
   "bytearray", "bytes", "callable", "chr", "classmethod", "compile", "complex",
   "delattr", "dict", "dir", "divmod", "enumerate", "eval", "exec", "filter",
   "float", "format", "frozenset", "getattr", "globals", "hasattr", "hash",
   "help", "hex", "id", "input", "int", "isinstance", "issubclass", "iter",
   "len", "list", "locals", "map", "max", "memoryview", "min", "next", "object",
   "oct", "open", "ord", "pow", "print", "property", "range", "repr", "reversed",
   "round", "set", "setattr", "slice", "sorted", "staticmethod", "str", "sum",
   "super", "tuple", "type", "vars", "zip", "True", "False", "None",
   "NotImplemented", "Ellipsis", "BaseException", "Exception", "ValueError",
   "TypeError", "NameError", "AttributeError", "AssertionError", "KeyError",
   "IndexError", "StopIteration", "RuntimeError", "OverflowError",
   "ZeroDivisionError", "ArithmeticError", "LookupError", "OSError"]

/-- Python name resolution for a name read in the body of
`_anchor_target_layer_np` that is not a bound local at the point of use:
local scope, then module globals, then builtins; a name in none of them
raises NameError. -/
def lookupFreeName (n : String) : Except String Unit :=
  if n ∈ anchorTargetLayerNpLocals ∨ n ∈ anchorModuleGlobals ∨ n ∈ pythonBuiltins then
    Except.ok ()
  else
    Except.error ("NameError: name " ++ n ++ " is not defined")

/-- Lines 100-109: `shift_x`/`shift_y` meshgrid, ravelled in W-inner H-outer
order and stacked into (x, y, x, y) rows. -/
def shiftsOf (height width : ℕ) (stride : ℚ) : List Vec4 :=
  (List.range height).flatMap (fun y =>
    (List.range width).map (fun x =>
      ((x : ℚ) * stride, (y : ℚ) * stride, (x : ℚ) * stride, (y : ℚ) * stride)))

/-- Lines 111-122: every anchor template translated by every cell shift,
cell-major and template-minor, the reshape of the (K, A, 4) sum to
(K * A, 4). -/
def allAnchorsOf (anchors : List Box) (shifts : List Vec4) : List Box :=
  shifts.flatMap (fun s =>
    anchors.map (fun a => ⟨a.x1 + s.1, a.y1 + s.2.1, a.x2 + s.2.2.1, a.y2 + s.2.2.2⟩))

/-- Lines 92-132 of `_anchor_target_layer_np`, the method behind the
`tf.py_func` of `_build`. Only the shape of `rpn_cls_score` is read
(`shape[1:3]`, modelled by passing the shape list), the anchor grid is built,
and then the inside-anchor filter of lines 127-132 evaluates
`im_info[1]`/`im_info[0]`. `im_info` is not a parameter, is assigned nowhere
in the function, and is neither a module-level nor a builtin name, so the
name lookup — performed explicitly here — raises NameError and no later line
runs. Were a value of `im_info` ever in scope, line 203 would still read the
free name `_unmap`, which exists only as a method of the class, never as a
module or local name, and would raise NameError as well; the success branch
below is therefore unreachable and no invocation returns the four arrays. -/
def anchor_target_layer_np (st : AnchorTargetState) (rpn_cls_score_shape : List ℕ)
    (gt_boxes : List GtBox) : Except String (List ℤ × List Vec4 × List Vec4 × List Vec4) :=
  let height := rpn_cls_score_shape.getD 1 0
  let width := rpn_cls_score_shape.getD 2 0
  let stride := st.feat_stride.getD 0 0
  let shifts := shiftsOf height width stride
  let A := st.num_anchors
  let K := shifts.length
  let all_anchors := allAnchorsOf st.anchors shifts
  let total_anchors := K * A
  match lookupFreeName "im_info" with
  | Except.error e => Except.error e
  | Except.ok _ =>
    -- dead code: `lookupFreeName "im_info"` never succeeds, and past line 132
    -- the body would raise NameError again at the free `_unmap` of line 203
    let _ := (gt_boxes, all_anchors, total_anchors, A)
    Except.error "unreachable"

/-! Helper lemmas about the numpy models. -/

theorem npArgmax_none_iff (l : List ℚ) : npArgmax l = none ↔ l = [] := by
  cases l with
  | nil => simp [npArgmax]
  | cons x xs =>
    simp only [npArgmax]
    constructor
    · intro h
      cases h' : npArgmax xs with
      | none => rw [h'] at h; simp at h
      | some k => rw [h'] at h; dsimp only at h; split at h <;> simp_all
    · intro h; exact absurd h (List.cons_ne_nil x xs)

theorem npArgmax_isSome (l : List ℚ) (h : l ≠ []) : ∃ k, npArgmax l = some k := by
  cases h' : npArgmax l with
  | none => exact absurd ((npArgmax_none_iff l).mp h') h
  | some k => exact ⟨k, rfl⟩

theorem npArgmax_lt_length : ∀ {l : List ℚ} {k : ℕ}, npArgmax l = some k → k < l.length := by
  intro l
  induction l with
  | nil => intro k h; simp [npArgmax] at h
  | cons x xs ih =>
    intro k h
    simp only [npArgmax] at h
    cases h' : npArgmax xs with
    | none =>
      rw [h'] at h; simp only [Option.some.injEq] at h
      subst h; simp
    | some k' =>
      rw [h'] at h; dsimp only at h
      split at h <;> simp only [Option.some.injEq] at h <;> subst h
      · simpa using Nat.succ_lt_succ (ih h')
      · simp

theorem npArgmax_getD_le : ∀ {l : List ℚ} {k : ℕ}, npArgmax l = some k →
    ∀ m, m < l.length → l.getD m 0 ≤ l.getD k 0 := by
  intro l
  induction l with
  | nil => intro k h; simp [npArgmax] at h
  | cons x xs ih =>
    intro k h m hm
    simp only [npArgmax] at h
    cases h' : npArgmax xs with
    | none =>
      rw [h'] at h; simp only [Option.some.injEq] at h
      subst h
      have hxs : xs = [] := (npArgmax_none_iff xs).mp h'
      subst hxs
      have hm0 : m = 0 := by simpa using hm
      subst hm0
      simp
    | some k' =>
      rw [h'] at h; dsimp only at h
      split at h <;> simp only [Option.some.injEq] at h <;> subst h
      · rename_i hlt
        cases m with
        | zero => simpa using le_of_lt hlt
        | succ m' =>
          simp only [List.getD_cons_succ]
          exact ih h' m' (by simpa using hm)
      · rename_i hnlt
        cases m with
        | zero => simp
        | succ m' =>
          simp only [List.getD_cons_succ, List.getD_cons_zero]
          exact le_trans (ih h' m' (by simpa using hm)) (not_lt.mp hnlt)

theorem argmaxEach_isSome : ∀ {rs : List (List ℚ)}, (∀ r ∈ rs, r ≠ []) →
    ∃ as, argmaxEach rs = some as := by
  intro rs
  induction rs with
  | nil => intro _; exact ⟨[], rfl⟩
  | cons r t ih =>
    intro h
    obtain ⟨a, ha⟩ := npArgmax_isSome r (h r (List.mem_cons_self r t))
    obtain ⟨as, has⟩ := ih (fun r' hr' => h r' (List.mem_cons_of_mem r hr'))
    exact ⟨a :: as, by simp [argmaxEach, ha, has]⟩

theorem argmaxEach_length : ∀ {rs : List (List ℚ)} {as : List ℕ},
    argmaxEach rs = some as → as.length = rs.length := by
  intro rs
  induction rs with
  | nil => intro as h; simp only [argmaxEach, Option.some.injEq] at h; subst h; rfl
  | cons r t ih =>
    intro as h
    simp only [argmaxEach] at h
    cases h1 : npArgmax r with
    | none => rw [h1] at h; simp at h
    | some a =>
      rw [h1] at h
      cases h2 : argmaxEach t with
      | none => rw [h2] at h; simp at h
      | some bs =>
        rw [h2] at h; simp only [Option.some.injEq] at h
        subst h; simp [ih h2]

theorem argmaxEach_getD : ∀ {rs : List (List ℚ)} {as : List ℕ},
    argmaxEach rs = some as → ∀ i, i < rs.length →
    npArgmax (rs.getD i []) = some (as.getD i 0) := by
  intro rs
  induction rs with
  | nil => intro as _ i hi; simp at hi
  | cons r t ih =>
    intro as h i hi
    simp only [argmaxEach] at h
    cases h1 : npArgmax r with
    | none => rw [h1] at h; simp at h
    | some a =>
      rw [h1] at h
      cases h2 : argmaxEach t with
      | none => rw [h2] at h; simp at h
      | some bs =>
        rw [h2] at h; simp only [Option.some.injEq] at h
        subst h
        cases i with
        | zero => simpa using h1
        | succ i' => simpa using ih h2 i' (by simpa using hi)

theorem getD_set_ne (l : List ℤ) (j i : ℕ) (v : ℤ) (d : ℤ) (h : j ≠ i) :
    (l.set j v).getD i d = l.getD i d := by
  simp [List.getD_eq_getElem?_getD, List.getElem?_set_ne h]

theorem getD_set_self (l : List ℤ) (i : ℕ) (v : ℤ) (d : ℤ) (h : i < l.length) :
    (l.set i v).getD i d = v := by
  simp [List.getD_eq_getElem?_getD, List.getElem?_set_eq_of_lt v h]

theorem setIdxs_length (l : List ℤ) (inds : List ℕ) (v : ℤ) :
    (setIdxs l inds v).length = l.length := by
  induction inds generalizing l with
  | nil => rfl
  | cons j t ih =>
    show (setIdxs (l.set j v) t v).length = l.length
    rw [ih, List.length_set]

theorem setIdxs_getD_of_not_mem {inds : List ℕ} {i : ℕ} (h : i ∉ inds)
    (l : List ℤ) (v d : ℤ) : (setIdxs l inds v).getD i d = l.getD i d := by
  induction inds generalizing l with
  | nil => rfl
  | cons j t ih =>
    show (setIdxs (l.set j v) t v).getD i d = l.getD i d
    rw [ih (fun hmem => h (List.mem_cons_of_mem j hmem)),
      getD_set_ne l j i v d (fun hji => h (hji ▸ List.mem_cons_self j t))]

theorem setIdxs_getD_of_mem {inds : List ℕ} {i : ℕ} (h : i ∈ inds) :
    ∀ (l : List ℤ) (v d : ℤ), i < l.length → (setIdxs l inds v).getD i d = v := by
  induction inds with
  | nil => exact absurd h (List.not_mem_nil i)
  | cons j t ih =>
    intro l v d hlen
    show (setIdxs (l.set j v) t v).getD i d = v
    by_cases hit : i ∈ t
    · exact ih hit (l.set j v) v d (by simpa using hlen)
    · have hij : i = j := by
        rcases List.mem_cons.mp h with h' | h'
        · exact h'
        · exact absurd h' hit
      subst hij
      rw [setIdxs_getD_of_not_mem hit, getD_set_self l i v d hlen]

theorem count_set_of_eq {l : List ℤ} {i : ℕ} {a v : ℤ} (hi : i < l.length)
    (ha : l.getD i 0 = a) (hv : v ≠ a) : (l.set i v).count a + 1 = l.count a := by
  induction l generalizing i with
  | nil => simp at hi
  | cons x t ih =>
    cases i with
    | zero =>
      simp only [List.getD_cons_zero] at ha
      subst ha
      simp [List.count_cons, hv]
    | succ i' =>
      simp only [List.getD_cons_succ] at ha
      have := ih (by simpa using hi) ha
      simp only [List.set_cons_succ, List.count_cons]
      omega

theorem count_set_of_ne {l : List ℤ} {i : ℕ} {c v : ℤ} (hgd : l.getD i 0 ≠ c)
    (hv : v ≠ c) : (l.set i v).count c = l.count c := by
  induction l generalizing i with
  | nil => rfl
  | cons x t ih =>
    cases i with
    | zero =>
      simp only [List.getD_cons_zero] at hgd
      simp [List.count_cons, hgd, hv]
    | succ i' =>
      simp only [List.getD_cons_succ] at hgd
      simp only [List.set_cons_succ, List.count_cons, ih hgd]

theorem count_setIdxs_eq {inds : List ℕ} {a v : ℤ} (hv : v ≠ a) :
    ∀ (l : List ℤ), inds.Nodup → (∀ i ∈ inds, i < l.length ∧ l.getD i 0 = a) →
    (setIdxs l inds v).count a + inds.length = l.count a := by
  induction inds with
  | nil => intro l _ _; simp [setIdxs]
  | cons j t ih =>
    intro l hnd hmem
    have hj := hmem j (List.mem_cons_self j t)
    have hnd' := List.nodup_cons.mp hnd
    have hstep : (setIdxs (l.set j v) t v).count a + t.length = (l.set j v).count a := by
      refine ih (l.set j v) hnd'.2 (fun i hi => ?_)
      have hmi := hmem i (List.mem_cons_of_mem j hi)
      have hji : j ≠ i := fun h => hnd'.1 (h ▸ hi)
      exact ⟨by simpa using hmi.1, by rw [getD_set_ne l j i v 0 hji]; exact hmi.2⟩
    have hone : (l.set j v).count a + 1 = l.count a := count_set_of_eq hj.1 hj.2 hv
    show (setIdxs (l.set j v) t v).count a + (t.length + 1) = l.count a
    omega

theorem count_setIdxs_ne {inds : List ℕ} {c v : ℤ} (hv : v ≠ c) :
    ∀ (l : List ℤ), (∀ i ∈ inds, l.getD i 0 ≠ c) →
    (setIdxs l inds v).count c = l.count c := by
  induction inds with
  | nil => intro l _; rfl
  | cons j t ih =>
    intro l hmem
    have hj : l.getD j 0 ≠ c := hmem j (List.mem_cons_self j t)
    have hrec : ∀ i ∈ t, (l.set j v).getD i 0 ≠ c := by
      intro i hi
      by_cases hji : j = i
      · subst hji
        by_cases hlen : j < l.length
        · rw [getD_set_self l j v 0 hlen]; exact hv
        · rw [List.set_eq_of_length_le (le_of_not_lt hlen)]
          exact hmem j (List.mem_cons_self j t)
      · rw [getD_set_ne l j i v 0 hji]
        exact hmem i (List.mem_cons_of_mem j hi)
    show (setIdxs (l.set j v) t v).count c = l.count c
    rw [ih (l.set j v) hrec, count_set_of_ne hj hv]

theorem idxsEqAux_length (v : ℤ) : ∀ (k : ℕ) (l : List ℤ),
    (idxsEqAux v k l).length = l.count v := by
  intro k l
  induction l generalizing k with
  | nil => rfl
  | cons x t ih =>
    simp only [idxsEqAux]
    by_cases hx : x = v
    · simp [hx, List.count_cons, ih]
    · simp [hx, List.count_cons, ih]

theorem idxsEqAux_mem (v : ℤ) : ∀ (k : ℕ) (l : List ℤ) (i : ℕ), i ∈ idxsEqAux v k l →
    k ≤ i ∧ i - k < l.length ∧ l.getD (i - k) 0 = v := by
  intro k l
  induction l generalizing k with
  | nil => intro i h; simp [idxsEqAux] at h
  | cons x t ih =>
    intro i h
    simp only [idxsEqAux] at h
    by_cases hx : x = v
    · rw [if_pos hx] at h
      rcases List.mem_cons.mp h with h' | h'
      · subst h'
        refine ⟨le_refl i, by simp, ?_⟩
        simpa [Nat.sub_self] using hx
      · obtain ⟨hk, hlt, hgd⟩ := ih (k + 1) i h'
        have hik : i - k = (i - (k + 1)) + 1 := by omega
        exact ⟨by omega, by simp; omega, by rw [hik, List.getD_cons_succ]; exact hgd⟩
    · rw [if_neg hx] at h
      obtain ⟨hk, hlt, hgd⟩ := ih (k + 1) i h
      have hik : i - k = (i - (k + 1)) + 1 := by omega
      exact ⟨by omega, by simp; omega, by rw [hik, List.getD_cons_succ]; exact hgd⟩

theorem idxsEqAux_nodup (v : ℤ) : ∀ (k : ℕ) (l : List ℤ), (idxsEqAux v k l).Nodup := by
  intro k l
  induction l generalizing k with
  | nil => exact List.nodup_nil
  | cons x t ih =>
    simp only [idxsEqAux]
    by_cases hx : x = v
    · rw [if_pos hx]
      refine List.nodup_cons.mpr ⟨fun hmem => ?_, ih (k + 1)⟩
      have := (idxsEqAux_mem v (k + 1) t k hmem).1
      omega
    · rw [if_neg hx]; exact ih (k + 1)

theorem idxsEq_length (l : List ℤ) (v : ℤ) : (idxsEq l v).length = l.count v :=
  idxsEqAux_length v 0 l

theorem idxsEq_nodup (l : List ℤ) (v : ℤ) : (idxsEq l v).Nodup := idxsEqAux_nodup v 0 l

theorem idxsEq_mem {l : List ℤ} {v : ℤ} {i : ℕ} (h : i ∈ idxsEq l v) :
    i < l.length ∧ l.getD i 0 = v := by
  have h2 := idxsEqAux_mem v 0 l i h
  simp only [Nat.sub_zero] at h2
  exact ⟨h2.2.1, h2.2.2⟩

theorem getD_zipWith {α β γ : Type} (f : α → β → γ) (l : List α) (m : List β)
    (i : ℕ) (da : α) (db : β) (dc : γ) (h1 : i < l.length) (h2 : i < m.length) :
    (List.zipWith f l m).getD i dc = f (l.getD i da) (m.getD i db) := by
  rw [List.getD_eq_getElem _ _ (by simp [List.length_zipWith]; omega),
    List.getD_eq_getElem _ _ h1, List.getD_eq_getElem _ _ h2]
  exact List.getElem_zipWith

theorem getD_map {α β : Type} (f : α → β) (l : List α) (i : ℕ) (da : α) (db : β)
    (h : i < l.length) : (l.map f).getD i db = f (l.getD i da) := by
  rw [List.getD_eq_getElem _ _ (by simpa using h), List.getD_eq_getElem _ _ h]
  exact List.getElem_map f

theorem getD_range {n i : ℕ} (h : i < n) (d : ℕ) : (List.range n).getD i d = i := by
  rw [List.getD_eq_getElem _ _ (by simpa using h)]
  exact List.getElem_range _ _

theorem getD_replicate {α : Type} (a d : α) {n i : ℕ} (h : i < n) :
    (List.replicate n a).getD i d = a := by
  rw [List.getD_eq_getElem _ _ (by simpa using h)]
  exact List.getElem_replicate a _

theorem ratFloor_eq_intFloor (q : ℚ) : Rat.floor q = ⌊q⌋ := by
  rw [Rat.floor_def']
  exact (Rat.floor_def).symm

theorem pyInt_eq_floor {q : ℚ} (h : 0 ≤ q) : pyInt q = ⌊q⌋ := by
  rw [pyInt, if_pos h, ratFloor_eq_intFloor]

theorem length_maskBelow (l : List ℤ) (mo : List ℚ) (t : ℚ) (v : ℤ) :
    (maskBelow l mo t v).length = min l.length mo.length := by
  simp [maskBelow]

theorem length_maskAtLeast (l : List ℤ) (mo : List ℚ) (t : ℚ) (v : ℤ) :
    (maskAtLeast l mo t v).length = min l.length mo.length := by
  simp [maskAtLeast]

theorem getD_maskBelow (l : List ℤ) (mo : List ℚ) (t : ℚ) (v : ℤ) (i : ℕ)
    (h1 : i < l.length) (h2 : i < mo.length) :
    (maskBelow l mo t v).getD i 0 = if mo.getD i 0 < t then v else l.getD i 0 := by
  rw [maskBelow, getD_zipWith _ l mo i 0 0 0 h1 h2]

theorem getD_maskAtLeast (l : List ℤ) (mo : List ℚ) (t : ℚ) (v : ℤ) (i : ℕ)
    (h1 : i < l.length) (h2 : i < mo.length) :
    (maskAtLeast l mo t v).getD i 0 = if t ≤ mo.getD i 0 then v else l.getD i 0 := by
  rw [maskAtLeast, getD_zipWith _ l mo i 0 0 0 h1 h2]

theorem length_labelsAfterPasses (c : Bool) (neg pos : ℚ) (mo : List ℚ) (gb : List ℕ) :
    (labelsAfterPasses c neg pos mo gb).length = mo.length := by
  unfold labelsAfterPasses
  cases c <;>
    simp [length_maskBelow, length_maskAtLeast, setIdxs_length, List.length_replicate]

theorem labelsAfterPasses_mem_one (neg pos : ℚ) (mo : List ℚ) (gb : List ℕ) (i : ℕ)
    (hi : i < mo.length) (hmem : i ∈ gb) :
    (labelsAfterPasses false neg pos mo gb).getD i 0 = 1 := by
  unfold labelsAfterPasses
  simp only [Bool.false_eq_true, if_false]
  have hlen1 : (maskBelow (List.replicate mo.length (-1)) mo neg 0).length = mo.length := by
    simp [length_maskBelow]
  have hlen2 :
      (setIdxs (maskBelow (List.replicate mo.length (-1)) mo neg 0) gb 1).length
        = mo.length := by
    rw [setIdxs_length, hlen1]
  have hl2 :
      (setIdxs (maskBelow (List.replicate mo.length (-1)) mo neg 0) gb 1).getD i 0 = 1 :=
    setIdxs_getD_of_mem hmem _ 1 0 (by rw [hlen1]; exact hi)
  rw [getD_maskAtLeast _ mo pos 1 i (by rw [hlen2]; exact hi) hi]
  split
  · rfl
  · exact hl2

theorem labelsAfterPasses_clobber_zero (neg pos : ℚ) (mo : List ℚ) (gb : List ℕ) (i : ℕ)
    (hi : i < mo.length) (hlt : mo.getD i 0 < neg) :
    (labelsAfterPasses true neg pos mo gb).getD i 0 = 0 := by
  unfold labelsAfterPasses
  simp only [if_true]
  have hlen3 :
      (maskAtLeast (setIdxs (List.replicate mo.length (-1)) gb 1) mo pos 1).length
        = mo.length := by
    rw [length_maskAtLeast, setIdxs_length, List.length_replicate, Nat.min_self]
  rw [getD_maskBelow _ mo neg 0 i (by rw [hlen3]; exact hi) hi, if_pos hlt]

theorem derivedOverlaps_eq_ok {ov : List (List ℚ)} {M : ℕ} {am ga : List ℕ}
    (ham : argmaxEach ov = some am)
    (hga : argmaxEach ((List.range M).map (colOf ov)) = some ga) :
    derivedOverlaps ov M = Except.ok ⟨am,
      List.zipWith (fun r a => r.getD a 0) ov am,
      (List.range ov.length).flatMap (fun i =>
        ((List.range M).filter (fun j => decide (entryAt ov i j =
          (List.zipWith (fun gi j => entryAt ov gi j) ga (List.range M)).getD j 0))).map
          (fun _ => i))⟩ := by
  rw [derivedOverlaps, ham, hga]

theorem derivedOverlaps_spec (ov : List (List ℚ)) (M : ℕ)
    (hwf : ∀ r ∈ ov, r.length = M) (hN : ov ≠ []) (hM : 0 < M) :
    ∃ d, derivedOverlaps ov M = Except.ok d ∧
      d.max_overlaps.length = ov.length ∧
      ∀ i, (i ∈ d.gt_best_anchor ↔ i < ov.length ∧
        ∃ j, j < M ∧ ∀ q, q < ov.length → entryAt ov q j ≤ entryAt ov i j) := by
  have hrow : ∀ r ∈ ov, r ≠ [] := by
    intro r hr hnil
    have := hwf r hr
    rw [hnil] at this
    simp at this
    omega
  obtain ⟨am, ham⟩ := argmaxEach_isSome hrow
  have hNpos : 0 < ov.length := List.length_pos.mpr hN
  have hcol : ∀ c ∈ (List.range M).map (colOf ov), c ≠ [] := by
    intro c hc hnil
    obtain ⟨j, hj, rfl⟩ := List.mem_map.mp hc
    have hlc : (colOf ov j).length = ov.length := by simp [colOf]
    rw [hnil] at hlc
    simp at hlc
    omega
  obtain ⟨ga, hga⟩ := argmaxEach_isSome hcol
  have hamlen : am.length = ov.length := argmaxEach_length ham
  have hgalen : ga.length = M := by
    have := argmaxEach_length hga
    simpa using this
  have hgmax : ∀ j, j < M →
      (List.zipWith (fun gi j => entryAt ov gi j) ga (List.range M)).getD j 0
        = entryAt ov (ga.getD j 0) j := by
    intro j hj
    rw [getD_zipWith _ ga (List.range M) j 0 0 0 (by rw [hgalen]; exact hj)
      (by simpa using hj)]
    rw [getD_range hj]
  have hcolmax : ∀ j, j < M → ga.getD j 0 < ov.length ∧
      ∀ q, q < ov.length → entryAt ov q j ≤ entryAt ov (ga.getD j 0) j := by
    intro j hj
    have hnp : npArgmax (((List.range M).map (colOf ov)).getD j []) = some (ga.getD j 0) :=
      argmaxEach_getD hga j (by simpa using hj)
    have hcolj : ((List.range M).map (colOf ov)).getD j [] = colOf ov j := by
      rw [getD_map (colOf ov) (List.range M) j 0 [] (by simpa using hj), getD_range hj]
    rw [hcolj] at hnp
    have hlen : (colOf ov j).length = ov.length := by simp [colOf]
    have h1 : ga.getD j 0 < ov.length := by
      have := npArgmax_lt_length hnp
      rwa [hlen] at this
    have hentry : ∀ q, q < ov.length → (colOf ov j).getD q 0 = entryAt ov q j := by
      intro q hq
      rw [colOf, getD_map _ ov q [] 0 hq]
      rfl
    refine ⟨h1, fun q hq => ?_⟩
    have hle := npArgmax_getD_le hnp q (by rwa [hlen])
    rwa [hentry q hq, hentry _ h1] at hle
  refine ⟨_, derivedOverlaps_eq_ok ham hga, ?_, ?_⟩
  · simp [List.length_zipWith, hamlen]
  · intro i
    rw [List.mem_flatMap]
    constructor
    · rintro ⟨i0, hi0, hmem⟩
      obtain ⟨j, hjmem, hji⟩ := List.mem_map.mp hmem
      subst hji
      obtain ⟨hjr, hjp⟩ := List.mem_filter.mp hjmem
      have hj : j < M := List.mem_range.mp hjr
      have heq : entryAt ov i0 j =
          (List.zipWith (fun gi j => entryAt ov gi j) ga (List.range M)).getD j 0 :=
        of_decide_eq_true hjp
      rw [hgmax j hj] at heq
      refine ⟨List.mem_range.mp hi0, j, hj, fun q hq => ?_⟩
      rw [heq]
      exact ((hcolmax j hj).2 q hq)
    · rintro ⟨hi, j, hj, hle⟩
      refine ⟨i, List.mem_range.mpr hi, List.mem_map.mpr ⟨j, ?_, rfl⟩⟩
      refine List.mem_filter.mpr ⟨List.mem_range.mpr hj, ?_⟩
      apply decide_eq_true
      rw [hgmax j hj]
      exact le_antisymm ((hcolmax j hj).2 i hi) (hle (ga.getD j 0) (hcolmax j hj).1)

theorem subsampleFg_spec (frac : ℚ) (batch : ℤ) (choice : List ℕ → ℕ → List ℕ)
    (labels : List ℤ) (hvc : ValidChoice choice)
    (hnn : 0 ≤ pyInt (frac * (batch : ℚ))) :
    ((subsampleFg frac batch choice labels).count 1 : ℤ) ≤ pyInt (frac * (batch : ℚ)) ∧
    (subsampleFg frac batch choice labels).count 0 = labels.count 0 := by
  unfold subsampleFg
  by_cases hbr : pyInt (frac * (batch : ℚ)) < ((idxsEq labels 1).length : ℤ)
  · rw [if_pos hbr]
    have hkle : (((idxsEq labels 1).length : ℤ) - pyInt (frac * (batch : ℚ))).toNat
        ≤ (idxsEq labels 1).length := by omega
    obtain ⟨hclen, hcnd, hcsub⟩ :=
      hvc (idxsEq labels 1) _ (idxsEq_nodup labels 1) hkle
    have hmem1 : ∀ i ∈ choice (idxsEq labels 1)
        ((((idxsEq labels 1).length : ℤ) - pyInt (frac * (batch : ℚ))).toNat),
        i < labels.length ∧ labels.getD i 0 = 1 :=
      fun i hi => idxsEq_mem (hcsub i hi)
    have hcount := count_setIdxs_eq (by decide : (-1 : ℤ) ≠ 1) labels hcnd hmem1
    rw [hclen] at hcount
    have hfgl : (idxsEq labels 1).length = labels.count 1 := idxsEq_length labels 1
    constructor
    · omega
    · refine count_setIdxs_ne (by decide : (-1 : ℤ) ≠ 0) labels ?_
      intro i hi
      rw [(hmem1 i hi).2]
      decide
  · rw [if_neg hbr]
    have hfgl : (idxsEq labels 1).length = labels.count 1 := idxsEq_length labels 1
    exact ⟨by omega, rfl⟩

theorem subsampleBg_spec (batch : ℤ) (choice : List ℕ → ℕ → List ℕ)
    (labels : List ℤ) (hvc : ValidChoice choice)
    (hnn : 0 ≤ batch - (labels.count 1 : ℤ)) :
    ((subsampleBg batch choice labels).count 0 : ℤ) ≤ batch - (labels.count 1 : ℤ) ∧
    (subsampleBg batch choice labels).count 1 = labels.count 1 := by
  unfold subsampleBg
  by_cases hbr : batch - (labels.count 1 : ℤ) < ((idxsEq labels 0).length : ℤ)
  · rw [if_pos hbr]
    have hkle : (((idxsEq labels 0).length : ℤ) - (batch - (labels.count 1 : ℤ))).toNat
        ≤ (idxsEq labels 0).length := by omega
    obtain ⟨hclen, hcnd, hcsub⟩ :=
      hvc (idxsEq labels 0) _ (idxsEq_nodup labels 0) hkle
    have hmem0 : ∀ i ∈ choice (idxsEq labels 0)
        ((((idxsEq labels 0).length : ℤ) - (batch - (labels.count 1 : ℤ))).toNat),
        i < labels.length ∧ labels.getD i 0 = 0 :=
      fun i hi => idxsEq_mem (hcsub i hi)
    have hcount := count_setIdxs_eq (by decide : (-1 : ℤ) ≠ 0) labels hcnd hmem0
    rw [hclen] at hcount
    have hbgl : (idxsEq labels 0).length = labels.count 0 := idxsEq_length labels 0
    constructor
    · omega
    · refine count_setIdxs_ne (by decide : (-1 : ℤ) ≠ 1) labels ?_
      intro i hi
      rw [(hmem0 i hi).2]
      decide
  · rw [if_neg hbr]
    have hbgl : (idxsEq labels 0).length = labels.count 0 := idxsEq_length labels 0
    exact ⟨by omega, rfl⟩

/-! Claim theorems. -/

/-- C1: ordering of the label-assignment passes. Every index of
`gt_best_anchor` has pre-sampling label 1 when `clobber_positives` is false,
even when its max overlap is below `negative_overlap`; when
`clobber_positives` is true, an anchor whose max overlap is below
`negative_overlap` ends with pre-sampling label 0, because the background
pass runs last and overrides the forced per-ground-truth positive. -/
theorem C1_pass_order (neg pos : ℚ) (mo : List ℚ) (gb : List ℕ) (i : ℕ)
    (hi : i < mo.length) (hmem : i ∈ gb) :
    (labelsAfterPasses false neg pos mo gb).getD i 0 = 1 ∧
    (mo.getD i 0 < neg → (labelsAfterPasses true neg pos mo gb).getD i 0 = 0) :=
  ⟨labelsAfterPasses_mem_one neg pos mo gb i hi hmem,
   fun hlt => labelsAfterPasses_clobber_zero neg pos mo gb i hi hlt⟩

theorem C1_pass_order_witness :
    0 < [(1 : ℚ)/5].length ∧ 0 ∈ [0] ∧
    ((labelsAfterPasses false (3/10) (7/10) [(1 : ℚ)/5] [0]).getD 0 0 = 1 ∧
      ((1 : ℚ)/5 < 3/10 →
        (labelsAfterPasses true (3/10) (7/10) [(1 : ℚ)/5] [0]).getD 0 0 = 0)) :=
  ⟨by decide, by decide, C1_pass_order (3/10) (7/10) [(1 : ℚ)/5] [0] 0 (by decide) (by decide)⟩

/-- C2 (amended): for every overlap matrix with at least one ground-truth
column and at least one anchor row, the computation succeeds and
`gt_best_anchor` contains exactly the anchor indices `i` such that some
column `j` has `overlaps[i][j]` equal to the maximum of column `j` (stated
as being at least every entry of the column); in particular every anchor tied
at a column maximum is selected. With zero anchor rows the claim fails: the
per-column argmax raises and no `gt_best_anchor` is produced (see the
counterexample). -/
theorem C2_gt_best_anchor_ties (ov : List (List ℚ)) (M : ℕ)
    (hwf : ∀ r ∈ ov, r.length = M) (hN : ov ≠ []) (hM : 0 < M) :
    ∃ d, derivedOverlaps ov M = Except.ok d ∧
      ∀ i, (i ∈ d.gt_best_anchor ↔ i < ov.length ∧
        ∃ j, j < M ∧ ∀ q, q < ov.length → entryAt ov q j ≤ entryAt ov i j) := by
  obtain ⟨d, hok, _, hchar⟩ := derivedOverlaps_spec ov M hwf hN hM
  exact ⟨d, hok, hchar⟩

theorem C2_gt_best_anchor_ties_witness :
    (∀ r ∈ [[(1 : ℚ), 0], [(1 : ℚ), 2]], r.length = 2) ∧
    ([[(1 : ℚ), 0], [(1 : ℚ), 2]] ≠ []) ∧ 0 < 2 ∧
    (∃ d, derivedOverlaps [[(1 : ℚ), 0], [(1 : ℚ), 2]] 2 = Except.ok d ∧
      ∀ i, (i ∈ d.gt_best_anchor ↔ i < ([[(1 : ℚ), 0], [(1 : ℚ), 2]] : List (List ℚ)).length ∧
        ∃ j, j < 2 ∧ ∀ q, q < ([[(1 : ℚ), 0], [(1 : ℚ), 2]] : List (List ℚ)).length →
          entryAt [[(1 : ℚ), 0], [(1 : ℚ), 2]] q j ≤ entryAt [[(1 : ℚ), 0], [(1 : ℚ), 2]] i j)) :=
  ⟨by decide, by decide, by decide,
   C2_gt_best_anchor_ties [[(1 : ℚ), 0], [(1 : ℚ), 2]] 2 (by decide) (by decide) (by decide)⟩

/-- C2 counterexample: the claim as stated quantifies over every overlap
matrix with at least one ground-truth column. At the matrix with zero anchor
rows and one column — the shape `bbox_overlaps` produces whenever no anchor
lies inside the image while one ground-truth box exists — the column argmax
of line 147 raises ValueError, so no `gt_best_anchor` is produced at all,
and in particular it does not equal the (empty) set of column-maximum
achievers. -/
theorem C2_zero_rows_counterexample :
    derivedOverlaps ([] : List (List ℚ)) 1 =
      Except.error "ValueError: attempt to get argmax of an empty sequence" ∧
    (∀ d, derivedOverlaps ([] : List (List ℚ)) 1 ≠ Except.ok d) :=
  ⟨rfl, fun d h => by simp [derivedOverlaps, argmaxEach, colOf, npArgmax] at h⟩

/-- C3: bounds enforced by the balanced sampler, for every input label
vector, every valid substitute for `np.random.choice`, and every
configuration within the documented ranges: afterwards at most
floor(foreground_fraction * batch_size) anchors keep label 1, at most
batch_size minus the post-subsampling positive count keep label 0, so at
most batch_size anchors keep a label in {0, 1}; a shortfall on either side
is simply left as is (no branch fails). -/
theorem C3_sampler_bounds (frac : ℚ) (batch : ℤ) (choice : List ℕ → ℕ → List ℕ)
    (labels : List ℤ) (hvc : ValidChoice choice)
    (h0 : 0 ≤ frac) (h1 : frac ≤ 1) (hb : 0 ≤ batch) :
    ((subsampleLabels frac batch choice labels).count 1 : ℤ) ≤ ⌊frac * (batch : ℚ)⌋ ∧
    ((subsampleLabels frac batch choice labels).count 0 : ℤ)
      ≤ batch - ((subsampleLabels frac batch choice labels).count 1 : ℤ) ∧
    ((subsampleLabels frac batch choice labels).count 1 : ℤ)
      + ((subsampleLabels frac batch choice labels).count 0 : ℤ) ≤ batch := by
  have hprod : (0 : ℚ) ≤ frac * (batch : ℚ) := mul_nonneg h0 (by exact_mod_cast hb)
  have hpy : pyInt (frac * (batch : ℚ)) = ⌊frac * (batch : ℚ)⌋ := pyInt_eq_floor hprod
  have hnn : 0 ≤ pyInt (frac * (batch : ℚ)) := by
    rw [hpy]
    exact Int.le_floor.mpr (by exact_mod_cast hprod)
  obtain ⟨hfg1, hfg0⟩ := subsampleFg_spec frac batch choice labels hvc hnn
  have hfloor_le : ⌊frac * (batch : ℚ)⌋ ≤ batch := by
    have hle : frac * (batch : ℚ) ≤ (batch : ℚ) := by
      calc frac * (batch : ℚ) ≤ 1 * (batch : ℚ) :=
            mul_le_mul_of_nonneg_right h1 (by exact_mod_cast hb)
        _ = (batch : ℚ) := one_mul _
    calc ⌊frac * (batch : ℚ)⌋ ≤ ⌊((batch : ℤ) : ℚ)⌋ := Int.floor_le_floor hle
      _ = batch := Int.floor_intCast batch
  have hnn2 : 0 ≤ batch - ((subsampleFg frac batch choice labels).count 1 : ℤ) := by
    omega
  obtain ⟨hbg0, hbg1⟩ :=
    subsampleBg_spec batch choice (subsampleFg frac batch choice labels) hvc hnn2
  unfold subsampleLabels
  rw [hbg1]
  refine ⟨by omega, by omega, by omega⟩

theorem validChoice_take : ValidChoice (fun l k => l.take k) := by
  intro l k hnd hk
  refine ⟨by simpa [List.length_take] using Nat.min_eq_left hk,
    hnd.sublist (List.take_sublist k l), fun x hx => List.mem_of_mem_take hx⟩

theorem C3_sampler_bounds_witness :
    ValidChoice (fun l k => l.take k) ∧ (0 : ℚ) ≤ 1/2 ∧ (1/2 : ℚ) ≤ 1 ∧ (0 : ℤ) ≤ 256 ∧
    (((subsampleLabels (1/2) 256 (fun l k => l.take k) [1, 0, -1]).count 1 : ℤ)
        ≤ ⌊(1/2 : ℚ) * ((256 : ℤ) : ℚ)⌋ ∧
      ((subsampleLabels (1/2) 256 (fun l k => l.take k) [1, 0, -1]).count 0 : ℤ)
        ≤ 256 - ((subsampleLabels (1/2) 256 (fun l k => l.take k) [1, 0, -1]).count 1 : ℤ) ∧
      ((subsampleLabels (1/2) 256 (fun l k => l.take k) [1, 0, -1]).count 1 : ℤ)
        + ((subsampleLabels (1/2) 256 (fun l k => l.take k) [1, 0, -1]).count 0 : ℤ) ≤ 256) :=
  ⟨validChoice_take, by norm_num, by norm_num, by decide,
   C3_sampler_bounds (1/2) 256 (fun l k => l.take k) [1, 0, -1] validChoice_take
     (by norm_num) (by norm_num) (by decide)⟩

/-- C4: with `num_examples` equal to the count of inside anchors whose final
label is nonnegative plus one, every inside anchor whose final label is 1 or
0 gets outside weight `1/num_examples` on each of the four components — the
same value for positives and negatives — and every anchor with label -1 gets
exactly zero on all four components. -/
theorem C4_outside_weights (labels : List ℤ) (i : ℕ) (hi : i < labels.length) :
    ((labels.getD i 0 = 1 ∨ labels.getD i 0 = 0) →
      (bbox_outside_weights labels).getD i (0, 0, 0, 0) =
        (1 / ((num_examples labels : ℤ) : ℚ), 1 / ((num_examples labels : ℤ) : ℚ),
         1 / ((num_examples labels : ℤ) : ℚ), 1 / ((num_examples labels : ℤ) : ℚ))) ∧
    (labels.getD i 0 = -1 →
      (bbox_outside_weights labels).getD i (0, 0, 0, 0) = (0, 0, 0, 0)) := by
  simp only [bbox_outside_weights]
  rw [getD_map _ labels i 0 (0, 0, 0, 0) hi]
  constructor
  · rintro (h | h) <;> rw [h] <;> norm_num
  · intro h
    rw [h]
    norm_num

theorem C4_outside_weights_witness :
    0 < ([1, 0, -1] : List ℤ).length ∧
    (((([1, 0, -1] : List ℤ).getD 0 0 = 1 ∨ ([1, 0, -1] : List ℤ).getD 0 0 = 0) →
      (bbox_outside_weights [1, 0, -1]).getD 0 (0, 0, 0, 0) =
        (1 / ((num_examples [1, 0, -1] : ℤ) : ℚ), 1 / ((num_examples [1, 0, -1] : ℤ) : ℚ),
         1 / ((num_examples [1, 0, -1] : ℤ) : ℚ), 1 / ((num_examples [1, 0, -1] : ℤ) : ℚ))) ∧
    (([1, 0, -1] : List ℤ).getD 0 0 = -1 →
      (bbox_outside_weights [1, 0, -1]).getD 0 (0, 0, 0, 0) = (0, 0, 0, 0))) :=
  ⟨by decide, C4_outside_weights [1, 0, -1] 0 (by decide)⟩

/-- C6: implicit edge case of the tie-inclusive selection. If some
ground-truth column has IoU 0 against every inside anchor, then every inside
anchor attains that column's maximum (0 = 0), so every inside anchor lands in
`gt_best_anchor`, and with `clobber_positives` false the forced-positive pass
gives every inside anchor pre-sampling label 1. -/
theorem C6_zero_column_all_positive (neg pos : ℚ) (ov : List (List ℚ)) (M j : ℕ)
    (hwf : ∀ r ∈ ov, r.length = M) (hN : ov ≠ []) (hj : j < M)
    (hz : ∀ i, i < ov.length → entryAt ov i j = 0) :
    ∃ d, derivedOverlaps ov M = Except.ok d ∧
      ∀ i, i < ov.length → i ∈ d.gt_best_anchor ∧
        (labelsAfterPasses false neg pos d.max_overlaps d.gt_best_anchor).getD i 0 = 1 := by
  obtain ⟨d, hok, hlen, hchar⟩ :=
    derivedOverlaps_spec ov M hwf hN (Nat.lt_of_le_of_lt (Nat.zero_le j) hj)
  refine ⟨d, hok, fun i hi => ?_⟩
  have hmem : i ∈ d.gt_best_anchor := by
    rw [hchar i]
    exact ⟨hi, j, hj, fun q hq => by rw [hz q hq, hz i hi]⟩
  exact ⟨hmem, labelsAfterPasses_mem_one neg pos _ _ i (by rw [hlen]; exact hi) hmem⟩

theorem C6_zero_column_all_positive_witness :
    (∀ r ∈ [[(0 : ℚ)], [(0 : ℚ)]], r.length = 1) ∧
    ([[(0 : ℚ)], [(0 : ℚ)]] ≠ []) ∧ 0 < 1 ∧
    (∀ i, i < ([[(0 : ℚ)], [(0 : ℚ)]] : List (List ℚ)).length →
      entryAt [[(0 : ℚ)], [(0 : ℚ)]] i 0 = 0) ∧
    (∃ d, derivedOverlaps [[(0 : ℚ)], [(0 : ℚ)]] 1 = Except.ok d ∧
      ∀ i, i < ([[(0 : ℚ)], [(0 : ℚ)]] : List (List ℚ)).length →
        i ∈ d.gt_best_anchor ∧
        (labelsAfterPasses false (3/10) (7/10) d.max_overlaps d.gt_best_anchor).getD i 0
          = 1) :=
  ⟨by decide, by decide, by decide, by decide,
   C6_zero_column_all_positive (3/10) (7/10) [[(0 : ℚ)], [(0 : ℚ)]] 1 0
     (by decide) (by decide) (by decide) (by decide)⟩

/-- C5 (code-bug record): the claim says an empty ground-truth set is not an
error. In the code it is: with M = 0 the overlap matrix has zero columns, so
`overlaps.argmax(axis=1)` at line 145 raises ValueError for any nonzero
number of inside anchors — here evaluated at a single inside anchor — and no
max overlaps, `gt_best_anchor` or labels are ever produced (independently of
the NameError of C7 that aborts every call even earlier). -/
theorem C5_empty_gt_raises :
    bbox_overlaps [⟨0, 0, 15, 15⟩] [] = [[]] ∧
    derivedOverlaps [[]] 0 =
      Except.error "ValueError: attempt to get argmax of an empty sequence" :=
  ⟨rfl, rfl⟩

/-- C7: for every state, every `rpn_cls_score` shape and every ground-truth
list, `_anchor_target_layer_np` raises NameError before returning anything:
the inside-anchor filter of lines 127-132 reads `im_info`, which is not a
parameter, not assigned in the function, and not a module-level or builtin
name; the embedding performs that lookup and propagates the error, so no
invocation produces the four output arrays (line 203 would moreover read the
free name `_unmap`, defined only as a method). -/
theorem C7_name_error_every_input (st : AnchorTargetState) (shape : List ℕ)
    (gt_boxes : List GtBox) :
    anchor_target_layer_np st shape gt_boxes =
      Except.error "NameError: name im_info is not defined" := rfl

/-- C9 (code-bug record): the constructor validates nothing. For every choice
of scales, ratios and stride it succeeds and returns the hardcoded
configuration — the range-constrained parameters the claim speaks of are not
even accepted as arguments, so no configuration error is ever raised at
construction time. -/
theorem C9_init_performs_no_validation
    (anchor_scales anchor_ratios feat_stride : List ℚ) :
    (AnchorTarget.init anchor_scales anchor_ratios feat_stride).positive_overlap = 7/10 ∧
    (AnchorTarget.init anchor_scales anchor_ratios feat_stride).negative_overlap = 3/10 ∧
    (AnchorTarget.init anchor_scales anchor_ratios feat_stride).foreground_fraction = 1/2 ∧
    (AnchorTarget.init anchor_scales anchor_ratios feat_stride).batch_size = 256 ∧
    (AnchorTarget.init anchor_scales anchor_ratios feat_stride).allowed_border = 0 ∧
    (AnchorTarget.init anchor_scales anchor_ratios feat_stride).clobber_positives = false :=
  ⟨rfl, rfl, rfl, rfl, rfl, rfl⟩

/-- C10 (code-bug record): no invocation ever produces output tensors to
compare for bit-identity — here the full method at a concrete state, shape
and ground-truth box evaluates to the NameError of the inside-anchor filter —
and the sampler, which is never reached, draws from the process-global
`np.random` generator rather than a caller-supplied source (the embedding
must take the draw as an explicit `choice` argument precisely because the
code offers no way to pass one). -/
theorem C10_no_output_ever_produced :
    anchor_target_layer_np (AnchorTarget.init [8, 16, 32] [1, 2] [16]) [1, 1, 1, 4]
      [⟨0, 0, 15, 15, 1⟩] = Except.error "NameError: name im_info is not defined" := rfl

/-- C8 (amended): regardless of any label, `bbox_targets` is computed for
every inside anchor as the box-delta encoding against its argmax-matched
ground truth — the zeros initialization of line 182 is dead — so an anchor
whose final label is not 1 still gets a generally nonzero regression target;
here, any anchor whose center x differs from its match has a nonzero first
component. Only the weight vectors, not the targets, gate the loss. -/
theorem C8_targets_regardless_of_label (anchors : List Box) (gts : List GtBox)
    (am : List ℕ) (i : ℕ) (hi : i < anchors.length) (him : i < am.length)
    (hw : (anchors.getD i default).x2 - (anchors.getD i default).x1 + 1 ≠ 0)
    (hc : ctrX (gts.getD (am.getD i 0) default).box ≠ ctrX (anchors.getD i default)) :
    (compute_targets anchors (gatherGt gts am)).getD i (0, 0, 0, 0) =
      bbox_transform (anchors.getD i default) (gts.getD (am.getD i 0) default).box ∧
    (compute_targets anchors (gatherGt gts am)).getD i (0, 0, 0, 0) ≠ (0, 0, 0, 0) := by
  have hg : (gatherGt gts am).getD i default = gts.getD (am.getD i 0) default := by
    rw [gatherGt, getD_map _ am i 0 default him]
  have heq : (compute_targets anchors (gatherGt gts am)).getD i (0, 0, 0, 0) =
      bbox_transform (anchors.getD i default) ((gatherGt gts am).getD i default).box := by
    rw [compute_targets,
      getD_zipWith _ anchors (gatherGt gts am) i default default (0, 0, 0, 0) hi
        (by simpa [gatherGt] using him)]
  rw [hg] at heq
  refine ⟨heq, ?_⟩
  rw [heq]
  intro hzero
  have h1 := congrArg Prod.fst hzero
  simp only [bbox_transform] at h1
  exact absurd h1 (div_ne_zero (sub_ne_zero.mpr hc) hw)

theorem C8_targets_regardless_of_label_witness :
    1 < ([⟨0, 0, 15, 15⟩, ⟨100, 0, 115, 15⟩] : List Box).length ∧
    1 < ([0, 0] : List ℕ).length ∧
    ((([⟨0, 0, 15, 15⟩, ⟨100, 0, 115, 15⟩] : List Box).getD 1 default).x2 -
      (([⟨0, 0, 15, 15⟩, ⟨100, 0, 115, 15⟩] : List Box).getD 1 default).x1 + 1 ≠ 0) ∧
    (ctrX (([⟨0, 0, 15, 15, 1⟩] : List GtBox).getD (([0, 0] : List ℕ).getD 1 0) default).box
      ≠ ctrX (([⟨0, 0, 15, 15⟩, ⟨100, 0, 115, 15⟩] : List Box).getD 1 default)) ∧
    ((compute_targets [⟨0, 0, 15, 15⟩, ⟨100, 0, 115, 15⟩]
        (gatherGt [⟨0, 0, 15, 15, 1⟩] [0, 0])).getD 1 (0, 0, 0, 0) =
      bbox_transform (([⟨0, 0, 15, 15⟩, ⟨100, 0, 115, 15⟩] : List Box).getD 1 default)
        (([⟨0, 0, 15, 15, 1⟩] : List GtBox).getD (([0, 0] : List ℕ).getD 1 0) default).box ∧
      (compute_targets [⟨0, 0, 15, 15⟩, ⟨100, 0, 115, 15⟩]
        (gatherGt [⟨0, 0, 15, 15, 1⟩] [0, 0])).getD 1 (0, 0, 0, 0) ≠ (0, 0, 0, 0)) :=
  ⟨by decide, by decide, by norm_num, by norm_num [ctrX, GtBox.box],
   C8_targets_regardless_of_label [⟨0, 0, 15, 15⟩, ⟨100, 0, 115, 15⟩] [⟨0, 0, 15, 15, 1⟩]
     [0, 0] 1 (by decide) (by decide) (by norm_num) (by norm_num [ctrX, GtBox.box])⟩

/-- C8 counterexample: a concrete run refuting the claim as stated. Two
inside anchors, one ground-truth box equal to the first anchor: the computed
overlaps are [[1], [0]], the derived data gives max overlaps [1, 0] and
`gt_best_anchor` = [0], the label passes produce [1, 0], the sampler leaves
them unchanged, so the second anchor has final label 0 — not 1 — yet its
regression target row is (-25/4, 0, 0, 0), not the zero vector the claim
requires. -/
theorem C8_nonzero_target_counterexample :
    bbox_overlaps [⟨0, 0, 15, 15⟩, ⟨100, 0, 115, 15⟩] [⟨0, 0, 15, 15, 1⟩] = [[1], [0]] ∧
    derivedOverlaps [[(1 : ℚ)], [0]] 1 = Except.ok ⟨[0, 0], [1, 0], [0]⟩ ∧
    labelsAfterPasses false (3/10) (7/10) [(1 : ℚ), 0] [0] = [1, 0] ∧
    subsampleLabels (1/2) 256 (fun l k => l.take k) [1, 0] = [1, 0] ∧
    ([1, 0] : List ℤ).getD 1 0 = 0 ∧
    (compute_targets [⟨0, 0, 15, 15⟩, ⟨100, 0, 115, 15⟩]
        (gatherGt [⟨0, 0, 15, 15, 1⟩] [0, 0])).getD 1 (0, 0, 0, 0) = (-25/4, 0, 0, 0) ∧
    ((-25/4 : ℚ), (0 : ℚ), (0 : ℚ), (0 : ℚ)) ≠ ((0 : ℚ), 0, 0, 0) := by
  refine ⟨?_, ?_, ?_, ?_, by decide, ?_, by norm_num [Prod.ext_iff]⟩
  · norm_num [bbox_overlaps, iou, boxArea, GtBox.box, min_def, max_def]
  · norm_num [derivedOverlaps, argmaxEach, npArgmax, colOf, entryAt,
      List.range_succ, List.filter, List.flatMap]
  · norm_num [labelsAfterPasses, maskBelow, maskAtLeast, setIdxs, List.replicate]
  · norm_num [subsampleLabels, subsampleFg, subsampleBg, pyInt, ratFloor_eq_intFloor,
      idxsEq, idxsEqAux, setIdxs]
  · norm_num [compute_targets, gatherGt, bbox_transform, ctrX, ctrY, GtBox.box]
